import Mathlib

/-!
Verification of the URI rewriting tool in src/git-rename-uri.py.

The program compiles one composite regular expression (source lines 225-239)
from two user-supplied fragments (a hostname fragment and a path fragment),
and uses it to list and rewrite the project paths found on the url-keyed
lines of git configuration files.

We embed the relevant parts of the program shallowly:
  * a small regex AST together with a backtracking matcher that mirrors the
    semantics of the Python re module as used by the program (MULTILINE
    anchors, greedy and lazy quantifiers, leftmost match, priority order of
    alternatives, captures by group number);
  * the composite pattern itself, parameterised by the two spliced fragments;
  * the replacement callback of the replace function (source lines 142-173),
    the warning stream, and the bytes the function writes to its output file
    (source lines 149, 175-179);
  * the listProjects function (source lines 115-133);
  * validateJSONConfig (source lines 206-215) and the surrounding main flow.

Texts are modelled as lists of characters.  The character class backslash-s
of the Python pattern is modelled over the six ASCII whitespace characters,
which covers every text considered here.
-/

/-- Texts and captured substrings are lists of characters. -/
abbrev Str := List Char

/-- Regex abstract syntax: exactly the constructions used by the composite
pattern of the program.  The optional operator exists in a greedy and in a
lazy variant, mirroring the question-mark and double-question-mark forms of
the source pattern; the starred operator of the source pattern only occurs
greedily. -/
inductive RE where
  | eps : RE
  | cls (p : Char → Bool) : RE
  | cat (a b : RE) : RE
  | alt (a b : RE) : RE
  | star (a : RE) : RE
  | optG (a : RE) : RE
  | optL (a : RE) : RE
  | grp (i : Nat) (a : RE) : RE
  | bol : RE
  | eol : RE

/-- A single literal character. -/
def chrRE (c : Char) : RE := RE.cls (fun d => d = c)

/-- A literal string. -/
def litRE (s : String) : RE := s.toList.foldr (fun c r => RE.cat (chrRE c) r) RE.eps

/-- One-or-more repetition, as in the plus operator of the source pattern. -/
def plusRE (a : RE) : RE := RE.cat a (RE.star a)

/-- Captured groups: an association list from group number to the half-open
span of text positions the group last matched. -/
abbrev Caps := List (Nat × Nat × Nat)

/-- Record a capture; the most recent binding for a group shadows older ones. -/
def setCap (caps : Caps) (idx a b : Nat) : Caps := (idx, a, b) :: caps

/-- Read a capture. -/
def getCap (caps : Caps) (idx : Nat) : Option (Nat × Nat) :=
  match caps with
  | [] => none
  | (j, a, b) :: rest => if j = idx then some (a, b) else getCap rest idx

/-- Greedy repetition loop: in priority order, first continue with one more
(progressing) iteration of the body, and only then stop.  An iteration that
consumes nothing ends the loop, as in the Python engine.  The fuel argument
is an upper bound on the number of iterations; since every iteration strictly
advances the position, text length plus one is always enough. -/
def starLoop (f : Nat → Caps → List (Nat × Caps)) : Nat → Nat → Caps → List (Nat × Caps)
  | 0, i, caps => [(i, caps)]
  | fuel + 1, i, caps =>
      (((f i caps).filter (fun r => i < r.1)).flatMap
        (fun r => starLoop f fuel r.1 r.2)) ++ [(i, caps)]

/-- The backtracking matcher: all ways for the pattern to match starting at
position i of the text s, as a list of (end position, captures) pairs listed
in the priority order of the Python backtracking engine.  The head of the
list, when it exists, is the match Python reports. -/
def mrun (s : Str) (r : RE) (i : Nat) (caps : Caps) : List (Nat × Caps) :=
  match r with
  | .eps => [(i, caps)]
  | .cls p =>
      match s.get? i with
      | some c => if p c then [(i + 1, caps)] else []
      | none => []
  | .cat a b => (mrun s a i caps).flatMap (fun r' => mrun s b r'.1 r'.2)
  | .alt a b => mrun s a i caps ++ mrun s b i caps
  | .star a => starLoop (fun j c => mrun s a j c) (s.length + 1) i caps
  | .optG a => mrun s a i caps ++ [(i, caps)]
  | .optL a => (i, caps) :: mrun s a i caps
  | .grp idx a => (mrun s a i caps).map (fun r' => (r'.1, setCap r'.2 idx i r'.1))
  | .bol => if i = 0 ∨ s.get? (i - 1) = some '\n' then [(i, caps)] else []
  | .eol => if i = s.length ∨ s.get? i = some '\n' then [(i, caps)] else []

/-- A regex match: span and captures, as in a Python match object. -/
structure RMatch where
  start : Nat
  stop : Nat
  caps : Caps
deriving Repr, DecidableEq

/-- Scanning loop with explicit fuel: try each position in turn, and at the
first position where the pattern matches take the highest-priority result,
as Python's scanning loop does. -/
def scanF (pat : RE) (s : Str) : Nat → Nat → Option RMatch
  | 0, _ => none
  | fuel + 1, pos =>
      if pos ≤ s.length then
        match (mrun s pat pos []).head? with
        | some r => some ⟨pos, r.1, r.2⟩
        | none => scanF pat s fuel (pos + 1)
      else none

/-- Leftmost match at or after a position.  The fuel covers exactly the
positions up to the end of the text, so the scan visits every one of
them. -/
def scanFrom (pat : RE) (s : Str) (pos : Nat) : Option RMatch :=
  scanF pat s (s.length + 1 - pos) pos

/-- All non-overlapping matches from a scan position, fuelled; after an empty
match the scan resumes one position later, as in the Python engine. -/
def fditer (pat : RE) (s : Str) : Nat → Nat → List RMatch
  | 0, _ => []
  | fuel + 1, pos =>
      match scanFrom pat s pos with
      | none => []
      | some m => m :: fditer pat s fuel (if m.start < m.stop then m.stop else m.stop + 1)

/-- The list of matches of the pattern in the text, in order of appearance:
the model of re.finditer. -/
def finditer (pat : RE) (s : Str) : List RMatch :=
  fditer pat s (s.length + 1) 0

/-- Stitch the substitution result together from the match list: text before
each match is copied verbatim, each matched span is replaced by the image of
the replacement function, and the tail after the last match is copied
verbatim.  Together with finditer this models re.sub with a callable
replacement. -/
def subJoin (repl : RMatch → Str) (s : Str) : Nat → List RMatch → Str
  | pos, [] => s.drop pos
  | pos, m :: ms => (s.drop pos).take (m.start - pos) ++ repl m ++ subJoin repl s m.stop ms

/-- The model of re.sub with a callable replacement. -/
def pySub (pat : RE) (repl : RMatch → Str) (s : Str) : Str :=
  subJoin repl s 0 (finditer pat s)

/-- The text of the span a match covered. -/
def spanStr (s : Str) (m : RMatch) : Str :=
  (s.drop m.start).take (m.stop - m.start)

/-- The text a numbered group captured (empty when the group did not
participate in the match). -/
def capStr (s : Str) (m : RMatch) (idx : Nat) : Str :=
  match getCap m.caps idx with
  | some (a, b) => (s.drop a).take (b - a)
  | none => []

/-! ### The composite pattern (source lines 225-239)

Group numbering follows Python: group 1 is the named group key, group 2 is
the protocol alternation, group 3 is the named group project.  The hostname
and path fragments are spliced in as parameters, exactly as the source
splices the strings from the configuration into the verbose pattern. -/

/-- The whitespace class backslash-s, over ASCII. -/
def wsChar (c : Char) : Bool :=
  c = ' ' || c = '\t' || c = '\n' || c = '\r' || c = '\x0b' || c = '\x0c'

/-- Zero-or-more whitespace. -/
def wsRE : RE := RE.star (RE.cls wsChar)

/-- First character of a Linux username in the pattern. -/
def userHeadChar (c : Char) : Bool := ('a' ≤ c && c ≤ 'z') || c = '_'

/-- Later characters of a Linux username in the pattern. -/
def userTailChar (c : Char) : Bool :=
  ('a' ≤ c && c ≤ 'z') || ('0' ≤ c && c ≤ '9') || c = '_' || c = '-'

/-- Characters allowed in the captured project name: anything but a dot or a
newline. -/
def projChar (c : Char) : Bool := !(c = '.' || c = '\n')

/-- Group 1: leading whitespace, the word url, equals sign, whitespace. -/
def keyRE : RE :=
  RE.grp 1 (RE.cat wsRE (RE.cat (litRE ("url"))
    (RE.cat wsRE (RE.cat (chrRE '=') wsRE))))

/-- Group 2: the protocol keyword alternation, in source order. -/
def protoAltRE : RE :=
  RE.alt (litRE ("file")) (RE.alt (litRE ("ssh")) (RE.alt (litRE ("git"))
    (RE.alt (litRE ("http")) (litRE ("https")))))

/-- Optional protocol prefix proto followed by the separator. -/
def protoOptRE : RE := RE.optG (RE.cat (RE.grp 2 protoAltRE) (litRE ("://")))

/-- Optional (lazily tried) username followed by the at sign. -/
def userRE : RE :=
  RE.optL (RE.cat (RE.cls userHeadChar) (RE.cat (RE.star (RE.cls userTailChar))
    (RE.cat (RE.optG (chrRE '$')) (chrRE '@'))))

/-- The URI alternative: either a protocol-qualified or SCP-style URI built
around the spliced hostname and path fragments, or the relative parent
marker of two dots. -/
def uriRE (hosts paths : RE) : RE :=
  RE.alt
    (RE.cat protoOptRE (RE.cat userRE (RE.cat hosts
      (RE.cat (RE.optG (chrRE ':')) paths))))
    (litRE (".."))

/-- Group 3: the captured project name. -/
def projRE : RE := RE.grp 3 (plusRE (RE.cls projChar))

/-- The composite pattern of source lines 225-239, parameterised by the two
spliced fragments. -/
def pattern (hosts paths : RE) : RE :=
  RE.cat RE.bol (RE.cat keyRE (RE.cat (uriRE hosts paths)
    (RE.cat (plusRE (chrRE '/')) (RE.cat projRE
      (RE.cat (RE.optL (litRE (".git"))) (RE.cat wsRE RE.eol))))))

/-- The hostname fragment of the worked example in the documentation. -/
def hostsEx : RE := litRE ("oldgit.example.org")

/-- The path fragment of the worked example in the documentation. -/
def pathsEx : RE :=
  RE.cat (plusRE (chrRE '/')) (RE.cat (RE.alt (litRE ("var")) (litRE ("srv")))
    (RE.cat (plusRE (chrRE '/')) (litRE ("git"))))

/-! ### The rewrite engine (source lines 135-189) and listing (115-133) -/

/-- Dictionary lookup in the substitution table; a missing key is the
KeyError branch of the source. -/
def substLookup : List (Str × Str) → Str → Option Str
  | [], _ => none
  | (k, v) :: rest, p => if k = p then some v else substLookup rest p

/-- The user part of the new URI: username followed by the at sign when a
username is given, empty otherwise (source line 153). -/
def userStr : Option Str → Str
  | some u => u ++ ("@").toList
  | none => []

/-- The new URI built for a substituted project (source lines 154-171). -/
def formatUri (proto host : Str) (username : Option Str) (path : Str) : Str :=
  if proto = ("ssh-colon").toList then
    userStr username ++ host ++ (":").toList ++ path
  else if proto = ("relative").toList then
    host ++ ("/").toList ++ path
  else
    proto ++ ("://").toList ++ userStr username ++ host ++ ("/").toList ++ path

/-- The replacement callback passed to sub (source lines 142-173).  When the
project has no substitution the source returns match.string, which in Python
is the ENTIRE text being searched, not the matched span; the model keeps
that behaviour faithfully by returning s. -/
def replCallback (subst : List (Str × Str)) (host proto : Str) (username : Option Str)
    (s : Str) (m : RMatch) : Str :=
  match substLookup subst (capStr s m 3) with
  | none => s
  | some newName => capStr s m 1 ++ formatUri proto host username newName

/-- The matches whose project has no substitution entry. -/
def unmappedMatches (pat : RE) (subst : List (Str × Str)) (s : Str) : List RMatch :=
  (finditer pat s).filter (fun m => (substLookup subst (capStr s m 3)).isNone)

/-- The warnings the replace function emits, one per unmapped occurrence, in
order of appearance (source line 147). -/
def replaceWarnings (pat : RE) (subst : List (Str × Str)) (s : Str) : List Str :=
  (unmappedMatches pat subst s).map (fun m => capStr s m 3)

/-- The value of the sub call at source line 175. -/
def replaceResult (pat : RE) (subst : List (Str × Str)) (host proto : Str)
    (username : Option Str) (s : Str) : Str :=
  pySub pat (replCallback subst host proto username s) s

/-- The bytes the replace function writes to the temporary file that then
replaces the original (non-dry-run): for every unmapped match the callback
also writes match.string, the whole input text, at source line 149, before
the sub result is written at source line 179. -/
def replaceFileOutput (pat : RE) (subst : List (Str × Str)) (host proto : Str)
    (username : Option Str) (s : Str) : Str :=
  ((unmappedMatches pat subst s).flatMap (fun _ => s)) ++
    replaceResult pat subst host proto username s

/-- The entries listProjects prints on standard output (source lines
120-133): one pair of project name and new name per matched occurrence whose
project has a substitution; an unmapped project is skipped by the continue
statement after its warning. -/
def listEntries (pat : RE) (subst : List (Str × Str)) (s : Str) : List (Str × Str) :=
  (finditer pat s).filterMap
    (fun m => (substLookup subst (capStr s m 3)).map (fun n => (capStr s m 3, n)))

/-- The warnings listProjects emits (source line 125), in order. -/
def listWarnings (pat : RE) (subst : List (Str × Str)) (s : Str) : List Str :=
  (finditer pat s).filterMap
    (fun m => if (substLookup subst (capStr s m 3)).isNone
              then some (capStr s m 3) else none)

/-! ### Configuration validation and the main flow (source lines 18, 206-241) -/

/-- The seven recognised protocols (source line 18). -/
def VALID_PROTOCOLS : List String :=
  [("git"), ("ssh"), ("http"), ("https"), ("ssh-colon"), ("file"), ("relative")]

/-- The configuration fields validateJSONConfig inspects.  The protocol key
may be absent from the replace object, hence an Option. -/
structure Config where
  searchHostname : String
  searchPath : String
  replaceProtocol : Option String
deriving Repr, DecidableEq

/-- The message of the ValueError raised for an invalid protocol (source
lines 208-209). -/
def protocolErrMsg (p : String) : String :=
  ("replace/protocol ") ++ p ++ (" is invalid")

/-- The diagnostic printed when a search fragment does not compile (source
line 215); the first failing fragment is reported and the run continues. -/
def invalidRegexMsg (frag : String) : String :=
  ("Config contains invalid regex ") ++ frag

/-- The regex-compilation part of validateJSONConfig (source lines 211-215):
compile the hostname fragment, then the path fragment; a failure is caught
and printed to the error stream, and no exception escapes.  Whether a
fragment compiles under Python re is modelled by the oracle compiles. -/
def regexDiags (compiles : String → Bool) (c : Config) : List String :=
  if !compiles c.searchHostname then [invalidRegexMsg c.searchHostname]
  else if !compiles c.searchPath then [invalidRegexMsg c.searchPath]
  else []

/-- validateJSONConfig (source lines 206-215): raises (error) exactly when
the protocol key is present with a value outside VALID_PROTOCOLS; otherwise
returns normally, carrying the diagnostics printed for non-compiling search
fragments. -/
def validateJSONConfig (compiles : String → Bool) (c : Config) :
    Except String (List String) :=
  match c.replaceProtocol with
  | some p =>
      if p ∈ VALID_PROTOCOLS then Except.ok (regexDiags compiles c)
      else Except.error (protocolErrMsg p)
  | none => Except.ok (regexDiags compiles c)

/-- What a run reaches after validation: the target files it goes on to open
and the diagnostics emitted during validation. -/
structure RunTrace where
  openedFiles : List String
  diags : List String
deriving Repr, DecidableEq

/-- The full text of the verbose pattern that main compiles at source line
225, with the two configured fragments spliced in by format.  The text is
the source literal after Python string processing: the backslash-n inside
the character class is a real newline, and the unrecognised backslash
escapes are kept verbatim. -/
def compositeSource (hosts paths : String) : String :=
  ("\n    ^(?P<key>\\s*url\\s*=\\s*)\n    (?:\n    # Either an URI:\n      (?:(file|ssh|git|http|https)://)?         # protocol, optional\n      (?:[a-z_][a-z0-9_-]*[$]?@)??              # Linux username, followed by '@', optional\n      (?:")
    ++ hosts ++
  (")                               # Accepted hostnames\n      :?(?:")
    ++ paths ++
  (")                             # Common paths\n    | # or a relative path\n      \\.\\.)\n    /+(?P<project>[^\\.\n]+)                     # project name\n    (?:\\.git)??                                 # optionally followed by \".git\"\n    \\s*$")

/-- The exception that escapes when the composite pattern itself does not
compile at source line 225: unlike the validation diagnostic it is not
caught anywhere and aborts the process. -/
def patternCompileAbort (src : String) : String :=
  ("uncaught re.error compiling ") ++ src

/-- A concrete instance of the compile oracle for witnesses and
counterexamples: a pattern text compiles exactly when its parentheses are
balanced in number.  The composite skeleton is balanced, so an unbalanced
fragment fails both on its own and spliced into the composite pattern. -/
def parenBalanced (f : String) : Bool :=
  f.toList.count '(' == f.toList.count ')'

/-- The main flow around validation (source lines 217-241): main calls
validateJSONConfig, whose uncaught ValueError aborts the process before
anything else happens; main then compiles the composite pattern with the
fragments spliced in (source line 225) outside any handler, so when that
pattern does not compile an uncaught re.error aborts the run as well; only
after both steps does the loop over targets open any file. -/
def mainRun (compiles : String → Bool) (c : Config) (targets : List String) :
    Except String RunTrace :=
  match validateJSONConfig compiles c with
  | Except.error e => Except.error e
  | Except.ok ds =>
      if compiles (compositeSource c.searchHostname c.searchPath) then
        Except.ok ⟨targets, ds⟩
      else
        Except.error (patternCompileAbort (compositeSource c.searchHostname c.searchPath))

/-- The composite pattern instantiated with the documented example
fragments. -/
def exPat : RE := pattern hostsEx pathsEx

/-- Patterns in which the only subexpression capturing into group 3 is the
project-name group itself: one-or-more characters of the project class.
The composite pattern has this shape whenever the spliced fragments
introduce no further groups, which holds for the example fragments and for
every group-free fragment. -/
inductive Cap3Good : RE → Prop
  | eps : Cap3Good RE.eps
  | cls (p : Char → Bool) : Cap3Good (RE.cls p)
  | cat {a b : RE} : Cap3Good a → Cap3Good b → Cap3Good (RE.cat a b)
  | alt {a b : RE} : Cap3Good a → Cap3Good b → Cap3Good (RE.alt a b)
  | star {a : RE} : Cap3Good a → Cap3Good (RE.star a)
  | optG {a : RE} : Cap3Good a → Cap3Good (RE.optG a)
  | optL {a : RE} : Cap3Good a → Cap3Good (RE.optL a)
  | grpNe {i : Nat} {a : RE} : i ≠ 3 → Cap3Good a → Cap3Good (RE.grp i a)
  | grp3 : Cap3Good projRE
  | bol : Cap3Good RE.bol
  | eol : Cap3Good RE.eol

/-- Invariant on capture stores: whenever group 3 is set, it names a
nonempty span of positions holding project-class characters. -/
def Good3 (s : Str) (caps : Caps) : Prop :=
  ∀ a b, getCap caps 3 = some (a, b) →
    a < b ∧ ∀ k, a ≤ k → k < b → ∃ c, s.get? k = some c ∧ projChar c = true

/-! ### Generic facts about the matcher -/

/-- The head of a list is a member. -/
theorem head?_mem {α : Type} (l : List α) (x : α) (h : l.head? = some x) : x ∈ l := by
  cases l with
  | nil => simp at h
  | cons a t => simp at h; subst h; exact List.mem_cons_self a t

/-- The repetition loop never moves the position backwards. -/
theorem starLoop_ge (f : Nat → Caps → List (Nat × Caps)) :
    ∀ fuel i caps, ∀ p ∈ starLoop f fuel i caps, i ≤ p.1 := by
  intro fuel
  induction fuel with
  | zero =>
      intro i caps p hp
      simp only [starLoop, List.mem_singleton] at hp
      subst hp; exact le_refl i
  | succ n ih =>
      intro i caps p hp
      simp only [starLoop, List.mem_append, List.mem_flatMap, List.mem_filter,
        List.mem_singleton, decide_eq_true_eq] at hp
      rcases hp with ⟨r, ⟨_, hlt⟩, hp⟩ | hp
      · exact le_trans (le_of_lt hlt) (ih r.1 r.2 p hp)
      · subst hp; exact le_refl i

/-- The matcher never moves the position backwards. -/
theorem mrun_ge (s : Str) (r : RE) :
    ∀ i caps, ∀ p ∈ mrun s r i caps, i ≤ p.1 := by
  induction r with
  | eps =>
      intro i caps p hp
      simp only [mrun, List.mem_singleton] at hp; subst hp; exact le_refl i
  | cls q =>
      intro i caps p hp
      unfold mrun at hp
      cases hg : s.get? i with
      | none => rw [hg] at hp; simp at hp
      | some c =>
          rw [hg] at hp
          by_cases hq : q c
          · simp only [hq, if_true, List.mem_singleton] at hp
            subst hp; exact Nat.le_succ i
          · simp [hq] at hp
  | cat a b iha ihb =>
      intro i caps p hp
      simp only [mrun, List.mem_flatMap] at hp
      obtain ⟨q, hq, hp⟩ := hp
      exact le_trans (iha i caps q hq) (ihb q.1 q.2 p hp)
  | alt a b iha ihb =>
      intro i caps p hp
      simp only [mrun, List.mem_append] at hp
      rcases hp with hp | hp
      · exact iha i caps p hp
      · exact ihb i caps p hp
  | star a iha =>
      intro i caps p hp
      exact starLoop_ge _ _ i caps p hp
  | optG a iha =>
      intro i caps p hp
      simp only [mrun, List.mem_append, List.mem_singleton] at hp
      rcases hp with hp | hp
      · exact iha i caps p hp
      · subst hp; exact le_refl i
  | optL a iha =>
      intro i caps p hp
      simp only [mrun, List.mem_cons] at hp
      rcases hp with hp | hp
      · subst hp; exact le_refl i
      · exact iha i caps p hp
  | grp idx a iha =>
      intro i caps p hp
      simp only [mrun, List.mem_map] at hp
      obtain ⟨q, hq, hp⟩ := hp
      subst hp; exact iha i caps q hq
  | bol =>
      intro i caps p hp
      unfold mrun at hp
      split at hp
      · simp only [List.mem_singleton] at hp; subst hp; exact le_refl i
      · simp at hp
  | eol =>
      intro i caps p hp
      unfold mrun at hp
      split at hp
      · simp only [List.mem_singleton] at hp; subst hp; exact le_refl i
      · simp at hp

/-- What the fuelled scan reports: the match starts at or after the scan
position, within the text, and its end and captures are the priority result
of the matcher at the match start. -/
theorem scanF_some {pat : RE} {s : Str} :
    ∀ fuel pos m, scanF pat s fuel pos = some m →
      pos ≤ m.start ∧ m.start ≤ s.length ∧
        (mrun s pat m.start []).head? = some (m.stop, m.caps) := by
  intro fuel
  induction fuel with
  | zero => intro pos m h; simp [scanF] at h
  | succ n ih =>
      intro pos m h
      rw [scanF] at h
      split at h
      · rename_i hle
        cases hr : (mrun s pat pos []).head? with
        | some r =>
            rw [hr] at h
            cases h
            exact ⟨le_refl _, hle, by rw [hr]⟩
        | none =>
            rw [hr] at h
            have hrec := ih (pos + 1) m h
            exact ⟨le_trans (Nat.le_succ pos) hrec.1, hrec.2.1, hrec.2.2⟩
      · exact absurd h (by simp)

/-- What a successful scan reports: the match starts at or after the scan
position, within the text, and its end and captures are the priority result
of the matcher at the match start. -/
theorem scanFrom_some {pat : RE} {s : Str} {pos : Nat} {m : RMatch}
    (h : scanFrom pat s pos = some m) :
    pos ≤ m.start ∧ m.start ≤ s.length ∧
      (mrun s pat m.start []).head? = some (m.stop, m.caps) :=
  scanF_some _ pos m h

/-- A found match has a well-ordered span. -/
theorem scanFrom_span {pat : RE} {s : Str} {pos : Nat} {m : RMatch}
    (h : scanFrom pat s pos = some m) : m.start ≤ m.stop := by
  obtain ⟨_, _, h3⟩ := scanFrom_some h
  exact mrun_ge s pat m.start [] _ (head?_mem _ _ h3)

/-- Splitting a suffix of a text at a later position. -/
theorem drop_split (s : Str) {p a : Nat} (h : p ≤ a) :
    s.drop p = (s.drop p).take (a - p) ++ s.drop a := by
  conv_lhs => rw [← List.take_append_drop (a - p) (s.drop p)]
  rw [List.drop_drop]
  congr 2
  omega

/-- When the replacement of every match in the scanned list is exactly the
text of its span, stitching reproduces the suffix of the text the scan
covers. -/
theorem subJoin_fditer_id (pat : RE) (s : Str) (repl : RMatch → Str) :
    ∀ fuel scanpos pos, pos ≤ scanpos →
      (∀ m ∈ fditer pat s fuel scanpos, repl m = spanStr s m) →
      subJoin repl s pos (fditer pat s fuel scanpos) = s.drop pos := by
  intro fuel
  induction fuel with
  | zero => intro scanpos pos _ _; simp [fditer, subJoin]
  | succ n ih =>
      intro scanpos pos hle hrepl
      rw [fditer]
      cases hscan : scanFrom pat s scanpos with
      | none => simp [subJoin]
      | some m =>
          rw [fditer, hscan] at hrepl
          simp only [subJoin]
          obtain ⟨h1, _, _⟩ := scanFrom_some hscan
          have hss : m.start ≤ m.stop := scanFrom_span hscan
          have hnext : m.stop ≤ (if m.start < m.stop then m.stop else m.stop + 1) := by
            split <;> omega
          rw [hrepl m (List.mem_cons_self _ _),
            ih _ m.stop hnext (fun m' hm' => hrepl m' (List.mem_cons_of_mem _ hm'))]
          have e1 : s.drop pos = (s.drop pos).take (m.start - pos) ++ s.drop m.start :=
            drop_split s (le_trans hle h1)
          have e2 : s.drop m.start =
              (s.drop m.start).take (m.stop - m.start) ++ s.drop m.stop :=
            drop_split s hss
          rw [spanStr]
          conv_rhs => rw [e1, e2]
          rw [List.append_assoc]

/-! ### Capture-content facts for the project group -/

/-- Reading a capture just written. -/
theorem getCap_setCap_self (caps : Caps) (idx a b : Nat) :
    getCap (setCap caps idx a b) idx = some (a, b) := by
  simp [setCap, getCap]

/-- Writing one group leaves the others unchanged. -/
theorem getCap_setCap_ne (caps : Caps) {i j : Nat} (h : i ≠ j) (a b : Nat) :
    getCap (setCap caps i a b) j = getCap caps j := by
  simp [setCap, getCap, h]

/-- A single character class consumes exactly one matching character and
leaves the captures alone. -/
theorem mrun_cls_mem {s : Str} {q : Char → Bool} {i : Nat} {caps : Caps}
    {p : Nat × Caps} (hp : p ∈ mrun s (RE.cls q) i caps) :
    p = (i + 1, caps) ∧ ∃ c, s.get? i = some c ∧ q c = true := by
  unfold mrun at hp
  cases hg : s.get? i with
  | none => rw [hg] at hp; simp at hp
  | some c =>
      rw [hg] at hp
      by_cases hq : q c
      · simp only [hq, if_true, List.mem_singleton] at hp
        exact ⟨hp, c, rfl, hq⟩
      · simp [hq] at hp

/-- The repetition of a character class consumes only matching characters
and leaves the captures alone. -/
theorem starLoop_cls (s : Str) (q : Char → Bool) :
    ∀ fuel i caps p, p ∈ starLoop (fun j c => mrun s (RE.cls q) j c) fuel i caps →
      p.2 = caps ∧ i ≤ p.1 ∧
        ∀ k, i ≤ k → k < p.1 → ∃ c, s.get? k = some c ∧ q c = true := by
  intro fuel
  induction fuel with
  | zero =>
      intro i caps p hp
      simp only [starLoop, List.mem_singleton] at hp
      subst hp
      exact ⟨rfl, le_refl i, fun k h1 h2 => absurd (lt_of_le_of_lt h1 h2) (lt_irrefl i)⟩
  | succ n ih =>
      intro i caps p hp
      simp only [starLoop, List.mem_append, List.mem_flatMap, List.mem_filter,
        List.mem_singleton, decide_eq_true_eq] at hp
      rcases hp with ⟨r, ⟨hr, _⟩, hp⟩ | hp
      · obtain ⟨hr1, c, hc, hqc⟩ := mrun_cls_mem hr
        obtain ⟨hp2, hple, hpchars⟩ := ih r.1 r.2 p hp
        subst hr1
        refine ⟨hp2, by omega, fun k h1 h2 => ?_⟩
        rcases Nat.eq_or_lt_of_le h1 with h1 | h1
        · exact ⟨c, h1 ▸ hc, hqc⟩
        · exact hpchars k h1 h2
      · subst hp
        exact ⟨rfl, le_refl i, fun k h1 h2 => absurd (lt_of_le_of_lt h1 h2) (lt_irrefl i)⟩

/-- One-or-more repetition of a character class: at least one character is
consumed, all consumed characters match the class, and the captures are
untouched. -/
theorem mrun_plus_cls {s : Str} {q : Char → Bool} {i : Nat} {caps : Caps}
    {p : Nat × Caps} (hp : p ∈ mrun s (plusRE (RE.cls q)) i caps) :
    p.2 = caps ∧ i < p.1 ∧
      ∀ k, i ≤ k → k < p.1 → ∃ c, s.get? k = some c ∧ q c = true := by
  unfold plusRE at hp
  simp only [mrun, List.mem_flatMap] at hp
  obtain ⟨r, hr, hp⟩ := hp
  obtain ⟨hr1, c, hc, hqc⟩ := mrun_cls_mem hr
  subst hr1
  obtain ⟨hp2, hple, hpchars⟩ := starLoop_cls s q _ (i + 1) caps p hp
  refine ⟨hp2, by omega, fun k h1 h2 => ?_⟩
  rcases Nat.eq_or_lt_of_le h1 with h1 | h1
  · exact ⟨c, h1 ▸ hc, hqc⟩
  · exact hpchars k h1 h2

/-- The repetition loop preserves any invariant of the capture store that
each iteration of its body preserves. -/
theorem starLoop_pres (f : Nat → Caps → List (Nat × Caps)) (P : Caps → Prop)
    (hf : ∀ j c, P c → ∀ p ∈ f j c, P p.2) :
    ∀ fuel i caps, P caps → ∀ p ∈ starLoop f fuel i caps, P p.2 := by
  intro fuel
  induction fuel with
  | zero =>
      intro i caps hP p hp
      simp only [starLoop, List.mem_singleton] at hp
      subst hp; exact hP
  | succ n ih =>
      intro i caps hP p hp
      simp only [starLoop, List.mem_append, List.mem_flatMap, List.mem_filter,
        List.mem_singleton, decide_eq_true_eq] at hp
      rcases hp with ⟨r, ⟨hr, _⟩, hp⟩ | hp
      · exact ih r.1 r.2 (hf i caps hP r hr) p hp
      · subst hp; exact hP

/-- Running any pattern of the admissible shape preserves the group-3
invariant: group 3 can only be (re)written by the project group, and the
project group always writes a nonempty span of project-class characters. -/
theorem mrun_good3 (s : Str) {r : RE} (hr : Cap3Good r) :
    ∀ i caps, Good3 s caps → ∀ p ∈ mrun s r i caps, Good3 s p.2 := by
  induction hr with
  | eps =>
      intro i caps hP p hp
      simp only [mrun, List.mem_singleton] at hp; subst hp; exact hP
  | cls q =>
      intro i caps hP p hp
      obtain ⟨hp1, -⟩ := mrun_cls_mem hp
      subst hp1; exact hP
  | cat ha hb iha ihb =>
      intro i caps hP p hp
      simp only [mrun, List.mem_flatMap] at hp
      obtain ⟨r', hr', hp⟩ := hp
      exact ihb r'.1 r'.2 (iha i caps hP r' hr') p hp
  | alt ha hb iha ihb =>
      intro i caps hP p hp
      simp only [mrun, List.mem_append] at hp
      rcases hp with hp | hp
      · exact iha i caps hP p hp
      · exact ihb i caps hP p hp
  | star ha iha =>
      intro i caps hP p hp
      exact starLoop_pres _ (Good3 s) (fun j c hc q hq => iha j c hc q hq) _ i caps hP p hp
  | optG ha iha =>
      intro i caps hP p hp
      simp only [mrun, List.mem_append, List.mem_singleton] at hp
      rcases hp with hp | hp
      · exact iha i caps hP p hp
      · subst hp; exact hP
  | optL ha iha =>
      intro i caps hP p hp
      simp only [mrun, List.mem_cons] at hp
      rcases hp with hp | hp
      · subst hp; exact hP
      · exact iha i caps hP p hp
  | grpNe hne ha iha =>
      intro i caps hP p hp
      simp only [mrun, List.mem_map] at hp
      obtain ⟨r', hr', hp⟩ := hp
      subst hp
      intro a b hab
      rw [getCap_setCap_ne _ hne] at hab
      exact iha i caps hP r' hr' a b hab
  | grp3 =>
      intro i caps hP p hp
      simp only [projRE, mrun, List.mem_map] at hp
      obtain ⟨r', hr', hp⟩ := hp
      obtain ⟨hcaps, hlt, hchars⟩ := mrun_plus_cls hr'
      subst hp
      intro a b hab
      rw [getCap_setCap_self] at hab
      injection hab with hab
      injection hab with h1 h2
      subst h1; subst h2
      exact ⟨hlt, hchars⟩
  | bol =>
      intro i caps hP p hp
      unfold mrun at hp
      split at hp
      · simp only [List.mem_singleton] at hp; subst hp; exact hP
      · simp at hp
  | eol =>
      intro i caps hP p hp
      unfold mrun at hp
      split at hp
      · simp only [List.mem_singleton] at hp; subst hp; exact hP
      · simp at hp

/-- Every match the iteration reports was reported by a scan. -/
theorem fditer_mem {pat : RE} {s : Str} :
    ∀ fuel pos m, m ∈ fditer pat s fuel pos → ∃ p, scanFrom pat s p = some m := by
  intro fuel
  induction fuel with
  | zero => intro pos m hm; simp [fditer] at hm
  | succ n ih =>
      intro pos m hm
      rw [fditer] at hm
      cases hscan : scanFrom pat s pos with
      | none => rw [hscan] at hm; simp at hm
      | some m' =>
          rw [hscan] at hm
          rcases List.mem_cons.mp hm with hm | hm
          · exact ⟨pos, hm ▸ hscan⟩
          · exact ih _ m hm

/-- Every match of a pattern of the admissible shape satisfies the group-3
invariant. -/
theorem finditer_good3 {pat : RE} {s : Str} (hpat : Cap3Good pat) :
    ∀ m ∈ finditer pat s, Good3 s m.caps := by
  intro m hm
  obtain ⟨p, hscan⟩ := fditer_mem _ _ m hm
  obtain ⟨-, -, hhead⟩ := scanFrom_some hscan
  have hmem := head?_mem _ _ hhead
  have hinit : Good3 s [] := by intro a b hab; simp [getCap] at hab
  exact mrun_good3 s hpat m.start [] hinit _ hmem

/-- From the invariant to the captured text: every character of the captured
project name is a project-class character. -/
theorem good3_capStr {s : Str} {m : RMatch} (h : Good3 s m.caps) :
    ∀ c ∈ capStr s m 3, projChar c = true := by
  intro c hc
  unfold capStr at hc
  cases hab : getCap m.caps 3 with
  | none => rw [hab] at hc; simp at hc
  | some ab =>
      rw [hab] at hc
      obtain ⟨a, b⟩ := ab
      obtain ⟨hlt, hchars⟩ := h a b hab
      obtain ⟨n, hn, hcn⟩ := List.mem_iff_getElem.mp hc
      have hn1 : n < b - a := by
        simp only [List.length_take, List.length_drop, lt_min_iff] at hn
        exact hn.1
      have hn2 : a + n < s.length := by
        simp only [List.length_take, List.length_drop, lt_min_iff] at hn
        omega
      have hcn2 : s[a + n] = c := by
        rw [← hcn]
        simp [List.getElem_take, List.getElem_drop]
      have hk : s.get? (a + n) = some c := by
        rw [List.get?_eq_getElem?, List.getElem?_eq_getElem hn2, hcn2]
      obtain ⟨c', hc', hqc⟩ := hchars (a + n) (Nat.le_add_right a n) (by omega)
      rw [hk] at hc'
      injection hc' with hc'
      rw [hc']
      exact hqc

/-! ### The composite pattern has the admissible capture shape -/

/-- Literal strings contain no groups. -/
theorem cap3good_foldr (l : List Char) :
    Cap3Good (l.foldr (fun c r => RE.cat (chrRE c) r) RE.eps) := by
  induction l with
  | nil => exact Cap3Good.eps
  | cons c t ih => exact Cap3Good.cat (Cap3Good.cls _) ih

/-- Literal strings contain no groups. -/
theorem cap3good_litRE (s : String) : Cap3Good (litRE s) := cap3good_foldr s.toList

/-- Key part of the pattern: its only group is number 1. -/
theorem cap3good_keyRE : Cap3Good keyRE :=
  Cap3Good.grpNe (by omega)
    (Cap3Good.cat (Cap3Good.star (Cap3Good.cls _)) (Cap3Good.cat (cap3good_litRE _)
      (Cap3Good.cat (Cap3Good.star (Cap3Good.cls _))
        (Cap3Good.cat (Cap3Good.cls _) (Cap3Good.star (Cap3Good.cls _))))))

/-- Protocol part of the pattern: its only group is number 2. -/
theorem cap3good_protoOptRE : Cap3Good protoOptRE :=
  Cap3Good.optG (Cap3Good.cat
    (Cap3Good.grpNe (by omega)
      (Cap3Good.alt (cap3good_litRE _) (Cap3Good.alt (cap3good_litRE _)
        (Cap3Good.alt (cap3good_litRE _) (Cap3Good.alt (cap3good_litRE _) (cap3good_litRE _))))))
    (cap3good_litRE _))

/-- Username part of the pattern: no groups. -/
theorem cap3good_userRE : Cap3Good userRE :=
  Cap3Good.optL (Cap3Good.cat (Cap3Good.cls _) (Cap3Good.cat (Cap3Good.star (Cap3Good.cls _))
    (Cap3Good.cat (Cap3Good.optG (Cap3Good.cls _)) (Cap3Good.cls _))))

/-- The whole composite pattern has the admissible shape whenever both
spliced fragments do. -/
theorem cap3good_pattern {hosts paths : RE} (hh : Cap3Good hosts) (hp : Cap3Good paths) :
    Cap3Good (pattern hosts paths) :=
  Cap3Good.cat Cap3Good.bol (Cap3Good.cat cap3good_keyRE (Cap3Good.cat
    (Cap3Good.alt
      (Cap3Good.cat cap3good_protoOptRE (Cap3Good.cat cap3good_userRE
        (Cap3Good.cat hh (Cap3Good.cat (Cap3Good.optG (Cap3Good.cls _)) hp))))
      (cap3good_litRE _))
    (Cap3Good.cat (Cap3Good.cat (Cap3Good.cls _) (Cap3Good.star (Cap3Good.cls _)))
      (Cap3Good.cat Cap3Good.grp3
        (Cap3Good.cat (Cap3Good.optL (cap3good_litRE _))
          (Cap3Good.cat (Cap3Good.star (Cap3Good.cls _)) Cap3Good.eol))))))

/-- The example hostname fragment is group-free. -/
theorem cap3good_hostsEx : Cap3Good hostsEx := cap3good_litRE _

/-- The example path fragment is group-free. -/
theorem cap3good_pathsEx : Cap3Good pathsEx :=
  Cap3Good.cat (Cap3Good.cat (Cap3Good.cls _) (Cap3Good.star (Cap3Good.cls _)))
    (Cap3Good.cat (Cap3Good.alt (cap3good_litRE _) (cap3good_litRE _))
      (Cap3Good.cat (Cap3Good.cat (Cap3Good.cls _) (Cap3Good.star (Cap3Good.cls _)))
        (cap3good_litRE _)))

/-! ### Listing versus rewriting over the same match list -/

/-- Both passes warn about exactly the same occurrences, in the same
order. -/
theorem warnings_agree (pat : RE) (subst : List (Str × Str)) (s : Str) :
    listWarnings pat subst s = replaceWarnings pat subst s := by
  rw [listWarnings, replaceWarnings, unmappedMatches]
  generalize finditer pat s = l
  induction l with
  | nil => rfl
  | cons m t ih =>
      cases h : substLookup subst (capStr s m 3) with
      | none =>
          simp [List.filterMap_cons, List.filter_cons, h]
          simpa using ih
      | some n =>
          simp [List.filterMap_cons, List.filter_cons, h]
          simpa using ih

/-- Every match produces either one listing entry or one warning. -/
theorem entries_partition (pat : RE) (subst : List (Str × Str)) (s : Str) :
    (listEntries pat subst s).length + (listWarnings pat subst s).length =
      (finditer pat s).length := by
  rw [listEntries, listWarnings]
  generalize finditer pat s = l
  induction l with
  | nil => rfl
  | cons m t ih =>
      cases h : substLookup subst (capStr s m 3) with
      | none =>
          simp only [List.filterMap_cons, h] at ih ⊢
          simp only [Option.map_none', Option.isNone_none, if_true, List.length_cons]
          omega
      | some n =>
          simp only [List.filterMap_cons, h] at ih ⊢
          simp only [Option.map_some', Option.isNone_some, Bool.false_eq_true,
            if_false, List.length_cons]
          omega

/-- The listing entries are the mapped matches, in file order. -/
theorem entries_in_order (pat : RE) (subst : List (Str × Str)) (s : Str) :
    (listEntries pat subst s).map Prod.fst =
      ((finditer pat s).filter (fun m => (substLookup subst (capStr s m 3)).isSome)).map
        (fun m => capStr s m 3) := by
  rw [listEntries]
  generalize finditer pat s = l
  induction l with
  | nil => rfl
  | cons m t ih =>
      cases h : substLookup subst (capStr s m 3) with
      | none =>
          simp [List.filterMap_cons, List.filter_cons, h]
          simpa using ih
      | some n =>
          simp [List.filterMap_cons, List.filter_cons, h]
          simpa using ih

/-! ### Claims -/

/-- C1: the claim that a matched span whose project has no substitution is
passed through verbatim fails on the code.  The replacement callback of the
replace function returns match.string, the ENTIRE input text, instead of the
matched span (source line 151), and additionally writes another full copy of
the text to the output file (source line 149).  On the two-line text with
the unmapped project nomap, exactly one warning is emitted as claimed, but
the file written is the whole text, then the whole text again in place of
the matched span, then the tail after the span, instead of the unchanged
input. -/
theorem C1_unmapped_span_mangled :
    replaceWarnings exPat [] (("url = ../nomap\nextra\n").toList) = [(("nomap").toList)] ∧
    replaceFileOutput exPat [] (("h").toList) (("ssh-colon").toList) none
        (("url = ../nomap\nextra\n").toList) =
      (("url = ../nomap\nextra\nurl = ../nomap\nextra\n\nextra\n").toList) ∧
    replaceFileOutput exPat [] (("h").toList) (("ssh-colon").toList) none
        (("url = ../nomap\nextra\n").toList) ≠
      (("url = ../nomap\nextra\n").toList) :=
  ⟨by decide, by decide, by decide⟩

/-- C3: the claim that the rewrite output is identical to the input outside
matched-and-substituted spans fails on the code.  On a text with one
unmapped match followed by the non-matching line world, the output file
duplicates the whole text (including the line world) before the
substitution result, because the replacement callback returns and writes
match.string, the entire input text; so the output differs from the input
far outside the matched span. -/
theorem C3_outside_span_not_preserved :
    (finditer exPat (("url = ../q\nworld\n").toList)).map (fun m => (m.start, m.stop)) =
      [(0, 10)] ∧
    replaceFileOutput exPat [] (("h").toList) (("ssh-colon").toList) none
        (("url = ../q\nworld\n").toList) =
      (("url = ../q\nworld\nurl = ../q\nworld\n\nworld\n").toList) ∧
    replaceFileOutput exPat [] (("h").toList) (("ssh-colon").toList) none
        (("url = ../q\nworld\n").toList) ≠
      (("url = ../q\nworld\n").toList) :=
  ⟨by decide, by decide, by decide⟩

/-- C7 (amended): listProjects prints one entry per matched occurrence WHOSE
PROJECT HAS A SUBSTITUTION, in file order, and skips unmapped occurrences,
emitting instead exactly the warnings the rewrite pass emits: the two
warning sequences coincide, every match yields either one entry or one
warning, and the entries are the mapped matches in file order. -/
theorem C7_listing_amended (pat : RE) (subst : List (Str × Str)) (s : Str) :
    listWarnings pat subst s = replaceWarnings pat subst s ∧
    (listEntries pat subst s).length + (listWarnings pat subst s).length =
      (finditer pat s).length ∧
    (listEntries pat subst s).map Prod.fst =
      ((finditer pat s).filter (fun m => (substLookup subst (capStr s m 3)).isSome)).map
        (fun m => capStr s m 3) :=
  ⟨warnings_agree pat subst s, entries_partition pat subst s, entries_in_order pat subst s⟩

/-- C7 (counterexample): the claim that listProjects reports exactly one
entry per matched line fails on the code: a text with one matched line whose
project miss is unmapped produces no entry at all, only a warning, because
the KeyError branch of listProjects continues without printing. -/
theorem C7_one_entry_per_match_counterexample :
    (finditer exPat (("url = ../miss\n").toList)).length = 1 ∧
    listEntries exPat [] (("url = ../miss\n").toList) = [] ∧
    listWarnings exPat [] (("url = ../miss\n").toList) = [(("miss").toList)] :=
  ⟨by decide, by decide, by decide⟩

/-- C9: the matched span ends with the whitespace-run-then-end-of-line part
of the pattern, which consumes the newline terminating the matched line when
the match closes the text; the replacement for a substituted match is only
the captured key text followed by the new URI, so the consumed trailing
whitespace, including the file-final newline, is deleted.  Concretely, the
single match of the final line url = ../a spans the whole eleven-character
text including its final newline, and rewriting drops that newline; a
non-final matched line keeps its newline (it lies outside the span); and a
file-final run of blank space after the matched line is likewise consumed
and deleted. -/
theorem C9_trailing_whitespace_consumed :
    (∀ (subst : List (Str × Str)) (host proto : Str) (user : Option Str) (s : Str)
        (m : RMatch) (n : Str), substLookup subst (capStr s m 3) = some n →
        replCallback subst host proto user s m = capStr s m 1 ++ formatUri proto host user n) ∧
    (finditer exPat (("url = ../a\n").toList)).map (fun m => (m.start, m.stop)) = [(0, 11)] ∧
    (("url = ../a\n").toList).length = 11 ∧
    replaceResult exPat [(("a").toList, ("b").toList)] (("..").toList) (("relative").toList)
      none (("url = ../a\n").toList) = ("url = ../b").toList ∧
    replaceResult exPat [(("a").toList, ("b").toList)] (("..").toList) (("relative").toList)
      none (("url = ../a\nxy").toList) = ("url = ../b\nxy").toList ∧
    (finditer exPat (("url = ../a\n \n").toList)).map (fun m => (m.start, m.stop)) =
      [(0, 13)] ∧
    replaceResult exPat [(("a").toList, ("b").toList)] (("..").toList) (("relative").toList)
      none (("url = ../a\n \n").toList) = ("url = ../b").toList := by
  refine ⟨?_, by decide, by decide, by decide, by decide, by decide, by decide⟩
  intro subst host proto user s m n h
  unfold replCallback
  rw [h]

/-- C9 witness: the general replacement shape evaluated at the final-line
example match. -/
theorem C9_trailing_whitespace_consumed_witness :
    substLookup [(("a").toList, ("b").toList)]
        (capStr (("url = ../a\n").toList) ⟨0, 11, [(3, 9, 10), (1, 0, 6)]⟩ 3) =
      some (("b").toList) ∧
    replCallback [(("a").toList, ("b").toList)] (("..").toList) (("relative").toList) none
        (("url = ../a\n").toList) ⟨0, 11, [(3, 9, 10), (1, 0, 6)]⟩ =
      capStr (("url = ../a\n").toList) ⟨0, 11, [(3, 9, 10), (1, 0, 6)]⟩ 1 ++
        formatUri (("relative").toList) (("..").toList) none (("b").toList) :=
  ⟨by decide, C9_trailing_whitespace_consumed.1 _ _ _ _ _ _ _ (by decide)⟩

/-- C2: for every match with a substitution entry the replacement written
for the matched span is the captured key text followed by the URI formatted
for the target protocol — user-at-host-colon-path for ssh-colon,
host-slash-path for relative, and scheme, separator, user, host, slash, path
for the five scheme protocols — and the worked example rewrites to the
documented output line. -/
theorem C2_replacement_format (subst : List (Str × Str)) (host : Str)
    (user : Option Str) (proto : Str) (s : Str) (m : RMatch) (newName : Str)
    (hlook : substLookup subst (capStr s m 3) = some newName) :
    replCallback subst host proto user s m =
      capStr s m 1 ++ formatUri proto host user newName ∧
    formatUri (("ssh-colon").toList) host user newName =
      userStr user ++ host ++ (":").toList ++ newName ∧
    formatUri (("relative").toList) host user newName =
      host ++ ("/").toList ++ newName ∧
    (proto ∈ [("git").toList, ("ssh").toList, ("http").toList, ("https").toList,
        ("file").toList] →
      formatUri proto host user newName =
        proto ++ ("://").toList ++ userStr user ++ host ++ ("/").toList ++ newName) ∧
    replaceFileOutput exPat [(("oldproject1").toList, ("new/path/project1").toList)]
        (("newgit.example.com").toList) (("ssh-colon").toList) (some (("git").toList))
        (("url = ssh://git@oldgit.example.org/var/git/oldproject1.git").toList) =
      (("url = git@newgit.example.com:new/path/project1").toList) := by
  refine ⟨?_, ?_, ?_, ?_, by decide⟩
  · unfold replCallback; rw [hlook]
  · unfold formatUri; rw [if_pos rfl]
  · unfold formatUri; rw [if_neg (by decide), if_pos rfl]
  · intro hmem
    simp only [List.mem_cons, List.not_mem_nil, or_false] at hmem
    unfold formatUri
    rcases hmem with h | h | h | h | h <;>
      (subst h; rw [if_neg (by decide), if_neg (by decide)])

/-- C2 witness: the general replacement shape evaluated at the worked
example match. -/
theorem C2_replacement_format_witness :
    substLookup [(("oldproject1").toList, ("new/path/project1").toList)]
        (capStr (("url = ssh://git@oldgit.example.org/var/git/oldproject1.git").toList)
          ⟨0, 58, [(3, 43, 54), (2, 6, 9), (1, 0, 6)]⟩ 3) =
      some (("new/path/project1").toList) ∧
    replCallback [(("oldproject1").toList, ("new/path/project1").toList)]
        (("newgit.example.com").toList) (("ssh-colon").toList) (some (("git").toList))
        (("url = ssh://git@oldgit.example.org/var/git/oldproject1.git").toList)
        ⟨0, 58, [(3, 43, 54), (2, 6, 9), (1, 0, 6)]⟩ =
      capStr (("url = ssh://git@oldgit.example.org/var/git/oldproject1.git").toList)
          ⟨0, 58, [(3, 43, 54), (2, 6, 9), (1, 0, 6)]⟩ 1 ++
        formatUri (("ssh-colon").toList) (("newgit.example.com").toList)
          (some (("git").toList)) (("new/path/project1").toList) :=
  ⟨by decide, (C2_replacement_format _ _ _ _ _ _ _ (by decide)).1⟩

/-- C4 (amended): when a search fragment does not compile (and the protocol
check passes), validateJSONConfig surfaces the failure on the diagnostics
stream and returns normally - validation itself raises nothing and never
aborts; but whether the run survives is decided only by the unguarded
composite-pattern compile of main at source line 225: the run proceeds to
every target exactly when the composite with the fragments spliced in still
compiles, and otherwise hard-aborts with an uncaught error before any
target is processed. -/
theorem C4_fragment_reported_validation_not_fatal (compiles : String → Bool) (c : Config)
    (hproto : ∀ p, c.replaceProtocol = some p → p ∈ VALID_PROTOCOLS)
    (hbad : compiles c.searchHostname = false ∨ compiles c.searchPath = false) :
    validateJSONConfig compiles c = Except.ok (regexDiags compiles c) ∧
    regexDiags compiles c ≠ [] ∧
    (∀ targets, compiles (compositeSource c.searchHostname c.searchPath) = true →
      mainRun compiles c targets = Except.ok ⟨targets, regexDiags compiles c⟩) ∧
    (∀ targets, compiles (compositeSource c.searchHostname c.searchPath) = false →
      mainRun compiles c targets =
        Except.error (patternCompileAbort (compositeSource c.searchHostname c.searchPath))) := by
  have hok : validateJSONConfig compiles c = Except.ok (regexDiags compiles c) := by
    unfold validateJSONConfig
    cases hc : c.replaceProtocol with
    | none => rfl
    | some p => simp [hproto p hc]
  refine ⟨hok, ?_, ?_, ?_⟩
  · unfold regexDiags
    cases hh : compiles c.searchHostname with
    | false => simp
    | true =>
        rcases hbad with hb | hb
        · rw [hh] at hb; exact absurd hb (by simp)
        · simp [hb]
  · intro targets hcomp
    unfold mainRun
    rw [hok]
    simp [hcomp]
  · intro targets hcomp
    unfold mainRun
    rw [hok]
    simp [hcomp]

set_option maxRecDepth 40000 in
/-- C4 witness: the amended statement exercised at the paren-balance oracle
with the hostname fragment a lone opening parenthesis: the fragment fails
the oracle, validation surfaces it and returns normally, and the composite
compile then aborts the run. -/
theorem C4_fragment_reported_validation_not_fatal_witness :
    parenBalanced ("(") = false ∧
    validateJSONConfig parenBalanced ⟨("("), ("x"), some (("git"))⟩ =
      Except.ok (regexDiags parenBalanced ⟨("("), ("x"), some (("git"))⟩) ∧
    mainRun parenBalanced ⟨("("), ("x"), some (("git"))⟩ [("t")] =
      Except.error (patternCompileAbort (compositeSource ("(") ("x"))) :=
  ⟨by decide,
    (C4_fragment_reported_validation_not_fatal parenBalanced _
      (by intro p hp; injection hp with h; rw [← h]; decide) (Or.inl (by decide))).1,
    (C4_fragment_reported_validation_not_fatal parenBalanced _
      (by intro p hp; injection hp with h; rw [← h]; decide) (Or.inl (by decide))).2.2.2
      [("t")] (by decide)⟩

set_option maxRecDepth 40000 in
/-- C4 (counterexample): the claim that the run is not hard-aborted fails on
the code.  With the paren-balance compile oracle and the hostname fragment a
lone opening parenthesis, validation catches the fragment failure and
surfaces one diagnostic, but main then compiles the composite pattern with
the fragment spliced in, that compile fails as well, and the run aborts
before any target is processed. -/
theorem C4_not_fatal_counterexample :
    validateJSONConfig parenBalanced ⟨("("), ("x"), some (("git"))⟩ =
      Except.ok [invalidRegexMsg ("(")] ∧
    parenBalanced (compositeSource ("(") ("x")) = false ∧
    mainRun parenBalanced ⟨("("), ("x"), some (("git"))⟩ [("t")] =
      Except.error (patternCompileAbort (compositeSource ("(") ("x"))) :=
  ⟨rfl, by decide, rfl⟩

/-- C5: a present but unrecognised replace protocol makes validateJSONConfig
raise a ValueError, and main validates before building the pattern and
before the loop over targets, so the run aborts with no target file ever
opened. -/
theorem C5_invalid_protocol_aborts (compiles : String → Bool) (c : Config) (p : String)
    (targets : List String) (hp : c.replaceProtocol = some p)
    (hbad : p ∉ VALID_PROTOCOLS) :
    validateJSONConfig compiles c = Except.error (protocolErrMsg p) ∧
    mainRun compiles c targets = Except.error (protocolErrMsg p) ∧
    ∀ tr : RunTrace, mainRun compiles c targets ≠ Except.ok tr := by
  have herr : validateJSONConfig compiles c = Except.error (protocolErrMsg p) := by
    unfold validateJSONConfig
    rw [hp]
    simp [hbad]
  refine ⟨herr, ?_, ?_⟩
  · unfold mainRun; rw [herr]
  · intro tr
    unfold mainRun; rw [herr]; simp

/-- C5 witness: the protocol value ftp is rejected before any file is
opened. -/
theorem C5_invalid_protocol_aborts_witness :
    validateJSONConfig (fun _ => true) ⟨("h"), ("p"), some (("ftp"))⟩ =
      Except.error (protocolErrMsg ("ftp")) ∧
    mainRun (fun _ => true) ⟨("h"), ("p"), some (("ftp"))⟩ [("t")] =
      Except.error (protocolErrMsg ("ftp")) ∧
    ∀ tr : RunTrace, mainRun (fun _ => true) ⟨("h"), ("p"), some (("ftp"))⟩ [("t")] ≠
      Except.ok tr :=
  C5_invalid_protocol_aborts _ _ _ _ rfl (by decide)

/-- C6 (amended): rewriting is idempotent on already-converted input
PROVIDED each matched span consists exactly of its captured key text
followed by the target-form URI of its substitution image — in particular
the span carries no trailing whitespace and no terminating newline, which
the pattern otherwise consumes and the rewrite deletes.  Under that proviso
the rewrite output is byte-identical to the input. -/
theorem C6_idempotent_amended (hosts paths : RE) (subst : List (Str × Str))
    (host proto : Str) (user : Option Str) (s : Str)
    (h : ∀ m ∈ finditer (pattern hosts paths) s, ∃ n,
        substLookup subst (capStr s m 3) = some n ∧
        spanStr s m = capStr s m 1 ++ formatUri proto host user n) :
    replaceFileOutput (pattern hosts paths) subst host proto user s = s := by
  have hnone : unmappedMatches (pattern hosts paths) subst s = [] := by
    rw [unmappedMatches, List.filter_eq_nil_iff]
    intro m hm
    obtain ⟨n, hn, -⟩ := h m hm
    simp [hn]
  have hsub : replaceResult (pattern hosts paths) subst host proto user s = s := by
    have hrepl : ∀ m ∈ fditer (pattern hosts paths) s (s.length + 1) 0,
        replCallback subst host proto user s m = spanStr s m := by
      intro m hm
      obtain ⟨n, hn, hspan⟩ := h m hm
      unfold replCallback
      rw [hn]
      exact hspan.symm
    have hid := subJoin_fditer_id (pattern hosts paths) s
      (replCallback subst host proto user s) (s.length + 1) 0 0 (le_refl 0) hrepl
    rw [replaceResult, pySub, finditer]
    simpa using hid
  unfold replaceFileOutput
  rw [hnone, hsub]
  simp

/-- C6 witness: a file whose single matched line is already in target form
and carries no trailing newline rewrites to itself. -/
theorem C6_idempotent_amended_witness :
    replaceFileOutput (pattern hostsEx pathsEx) [(("b").toList, ("b").toList)]
        (("..").toList) (("relative").toList) none (("url = ../b").toList) =
      (("url = ../b").toList) := by
  apply C6_idempotent_amended
  intro m hm
  have hfi : finditer (pattern hostsEx pathsEx) (("url = ../b").toList) =
      [⟨0, 10, [(3, 9, 10), (1, 0, 6)]⟩] := by decide
  rw [hfi] at hm
  simp only [List.mem_singleton] at hm
  subst hm
  exact ⟨("b").toList, by decide, by decide⟩

/-- C6 (counterexample): the claim fails as stated.  In the one-line file
url = ../self with terminating newline, the single match is already in
target form — protocol relative, hostname the two-dot parent marker,
project self mapping to itself — yet the match spans all fourteen
characters including the final newline, and the rewrite emits only the key
text and the URI, so the output drops the final newline and is not
byte-identical to the input. -/
theorem C6_idempotence_counterexample :
    substLookup [(("self").toList, ("self").toList)] (("self").toList) =
      some (("self").toList) ∧
    formatUri (("relative").toList) (("..").toList) none (("self").toList) =
      ("../self").toList ∧
    (finditer exPat (("url = ../self\n").toList)).map (fun m => (m.start, m.stop)) =
      [(0, 14)] ∧
    (("url = ../self\n").toList).length = 14 ∧
    replaceFileOutput exPat [(("self").toList, ("self").toList)] (("..").toList)
      (("relative").toList) none (("url = ../self\n").toList) =
      ("url = ../self").toList ∧
    replaceFileOutput exPat [(("self").toList, ("self").toList)] (("..").toList)
      (("relative").toList) none (("url = ../self\n").toList) ≠
      (("url = ../self\n").toList) :=
  ⟨by decide, by decide, by decide, by decide, by decide, by decide⟩

/-- C8: the captured project name consists of characters excluding dot and
newline — for any text and any spliced fragments of the admissible
(group-free) shape, every match's recorded project capture is a nonempty
span and every captured character differs from dot and newline; and lines
whose project path holds a dot anywhere except as a single terminal git
suffix are not matched at all, as the concrete examples show. -/
theorem C8_project_capture_no_dot (hosts paths : RE)
    (hh : Cap3Good hosts) (hp : Cap3Good paths) :
    (∀ (s : Str), ∀ m ∈ finditer (pattern hosts paths) s,
      (∀ a b, getCap m.caps 3 = some (a, b) → a < b) ∧
      ∀ c ∈ capStr s m 3, c ≠ '.' ∧ c ≠ '\n') ∧
    finditer exPat (("url = ../my.project/x").toList) = [] ∧
    finditer exPat (("url = ssh://git@oldgit.example.org/var/git/a.b").toList) = [] ∧
    finditer exPat (("url = ../a.git.git").toList) = [] := by
  refine ⟨?_, by decide, by decide, by decide⟩
  intro s m hm
  have hg : Good3 s m.caps := finditer_good3 (cap3good_pattern hh hp) m hm
  constructor
  · intro a b hab
    exact (hg a b hab).1
  · intro c hc
    have hpc := good3_capStr hg c hc
    simp only [projChar] at hpc
    constructor
    · intro hcc; subst hcc; simp at hpc
    · intro hcc; subst hcc; simp at hpc

/-- C8 witness: the example fragments have the admissible shape, and a
concrete character of the captured project of the worked example match is
neither dot nor newline. -/
theorem C8_project_capture_no_dot_witness :
    'o' ∈ capStr (("url = ssh://git@oldgit.example.org/var/git/oldproject1.git").toList)
        ⟨0, 58, [(3, 43, 54), (2, 6, 9), (1, 0, 6)]⟩ 3 ∧ 'o' ≠ '.' ∧ 'o' ≠ '\n' :=
  ⟨by decide,
    ((C8_project_capture_no_dot hostsEx pathsEx cap3good_hostsEx cap3good_pathsEx).1
      (("url = ssh://git@oldgit.example.org/var/git/oldproject1.git").toList)
      ⟨0, 58, [(3, 43, 54), (2, 6, 9), (1, 0, 6)]⟩ (by decide)).2 'o' (by decide)⟩

/-- C10: a configuration whose replace object lacks the protocol key passes
validation: the protocol check fires only when the key is present, the
regex check never raises, and the run proceeds to its targets. -/
theorem C10_absent_protocol_passes (compiles : String → Bool) (c : Config)
    (h : c.replaceProtocol = none) :
    validateJSONConfig compiles c = Except.ok (regexDiags compiles c) ∧
    ∀ targets, compiles (compositeSource c.searchHostname c.searchPath) = true →
      mainRun compiles c targets = Except.ok ⟨targets, regexDiags compiles c⟩ := by
  have hok : validateJSONConfig compiles c = Except.ok (regexDiags compiles c) := by
    unfold validateJSONConfig; rw [h]
  refine ⟨hok, fun targets hcomp => ?_⟩
  unfold mainRun
  rw [hok]
  simp [hcomp]

/-- C10 witness: a concrete configuration without the protocol key passes
validation and, its composite pattern compiling, reaches its target. -/
theorem C10_absent_protocol_passes_witness :
    validateJSONConfig (fun _ => true) ⟨("h"), ("p"), none⟩ =
      Except.ok (regexDiags (fun _ => true) ⟨("h"), ("p"), none⟩) ∧
    mainRun (fun _ => true) ⟨("h"), ("p"), none⟩ [("t")] =
      Except.ok ⟨[("t")], regexDiags (fun _ => true) ⟨("h"), ("p"), none⟩⟩ :=
  ⟨(C10_absent_protocol_passes _ _ rfl).1,
    (C10_absent_protocol_passes _ _ rfl).2 [("t")] rfl⟩
